import Mathlib

/-!
Formal verification of the Equine Oracle prediction-to-decision pipeline.

Shallow embedding, over exact rational arithmetic, of:
- the Ensemble Combiner / Signal logic (src/unnamed/part_006, class EnsemblePredictor);
- the Accuracy Validator (src/services/monitoring/accuracy_validator.ts);
- the Metrics Calculator (src/server/metrics_calculator_2.ts);
- the Metrics Aggregator (src/server/services/metrics_service.ts);
- the Auto-Retraining Engine (src/server/services/auto_retraining_service.ts).

Numbers are modelled as rationals (reals only where the source takes a square
root); JavaScript Maps are modelled as lookup functions or association lists;
wall-clock values (Date.now()) are passed as explicit parameters; the
Math.random() placeholder model predictors are passed as explicit score-list
arguments (they are documented stubs, see part_006).
-/

/-! ## Ensemble Combiner (src/unnamed/part_006, class EnsemblePredictor) -/

/-- Betting signal categories of the `PredictionResult.betting_signal` field. -/
inductive Signal where
  | STRONG_BUY
  | BUY
  | HOLD
  | WAIT
deriving DecidableEq, Repr

/-- Form sub-record of the `RaceInput` interface. -/
structure FormData where
  last_5_finishes : List ℚ
  days_since_last_race : ℚ
  avg_perf_index_l5 : ℚ
  weighted_form_score : ℚ
deriving DecidableEq, Repr

/-- Per-horse input record of the `RaceInput` interface.  None of these fields
is read by `EnsemblePredictor` itself (the four per-model predictors are
documented placeholders), so only the field shapes matter. -/
structure RaceInput where
  horse_name : String
  track_name : String
  distance : ℚ
  barrier : ℚ
  weight : ℚ
  jockey : String
  trainer : String
  form_data : FormData
  track_condition : Option String := none
  odds : Option ℚ := none
deriving DecidableEq, Repr

/-- Per-horse output record of the `PredictionResult` interface. -/
structure PredictionResult where
  horse_name : String
  rank : ℕ
  score : ℚ
  confidence : ℚ
  implied_probability : ℚ
  betting_signal : Signal
  expected_roi : ℚ
deriving DecidableEq, Repr

/-- Race-level recommendation returned by `getRecommendedAction`; the source
returns one of five template strings, abstracted here to their branch (the
formatted horse name and percentage are carried where the source interpolates
them). -/
inductive RaceAction where
  | waitLowAgreement
  | strongBuyTop (horse : String)
  | buyTop (horse : String)
  | holdModerate
  | waitInsufficient
deriving DecidableEq, Repr

/-- Race-level output of `predictRace` (`EnsembleOutput`); the `race_id` and
`timestamp` fields are derived from the wall clock in the source and carry no
logic, so they are omitted. -/
structure EnsembleOutput where
  predictions : List PredictionResult
  ensemble_confidence : ℚ
  model_agreement : ℚ
  recommended_action : RaceAction
deriving DecidableEq, Repr

/-- Fixed ensemble weights field `modelWeights` of `EnsemblePredictor`. -/
structure ModelWeights where
  lightgbm : ℚ
  xgboost : ℚ
  catboost : ℚ
  neural : ℚ
deriving DecidableEq, Repr

/-- Default `modelWeights` values: 0.35 / 0.25 / 0.25 / 0.15. -/
def modelWeights : ModelWeights :=
  { lightgbm := 35/100, xgboost := 25/100, catboost := 25/100, neural := 15/100 }

/-- Confidence thresholds field `confidenceThresholds` of `EnsemblePredictor`:
very_high 0.75, high 0.60, medium 0.45, low 0.30. -/
structure ConfidenceThresholds where
  very_high : ℚ
  high : ℚ
  medium : ℚ
  low : ℚ
deriving DecidableEq, Repr

/-- Default `confidenceThresholds` values. -/
def confidenceThresholds : ConfidenceThresholds :=
  { very_high := 75/100, high := 60/100, medium := 45/100, low := 30/100 }

/-- Method `combineWeightedPredictions`: per-index weighted sum of the four
model score arrays.  The source maps over the first array by index; the other
arrays are read at the same index (always in bounds in the source, where all
four arrays have one entry per horse; `getD _ 0` stands for that access). -/
def combineWeightedPredictions (lgb xgb cat neural : List ℚ) : List ℚ :=
  (List.range lgb.length).map (fun i =>
    modelWeights.lightgbm * lgb.getD i 0 +
    modelWeights.xgboost * xgb.getD i 0 +
    modelWeights.catboost * cat.getD i 0 +
    modelWeights.neural * neural.getD i 0)

/-- Method `getBettingSignal`: thresholds the confidence value against
`confidenceThresholds` (0.75 / 0.60 / 0.45); the horse's rank is not an input. -/
def getBettingSignal (confidence : ℚ) : Signal :=
  if confidenceThresholds.very_high ≤ confidence then .STRONG_BUY
  else if confidenceThresholds.high ≤ confidence then .BUY
  else if confidenceThresholds.medium ≤ confidence then .HOLD
  else .WAIT

/-- Method `calculateExpectedROI`: `(confidence - 1/fieldSize) * 100` with an
assumed 10-horse field. -/
def calculateExpectedROI (confidence : ℚ) : ℚ :=
  let fieldSize : ℚ := 10
  let expectedValue := confidence - 1 / fieldSize
  expectedValue * 100

/-- Insertion step of the stable descending sort: a new element is placed
before the first strictly smaller score and after all earlier elements with an
equal or larger score. -/
def insertByScoreDesc (x : PredictionResult) : List PredictionResult → List PredictionResult
  | [] => [x]
  | y :: ys => if y.score < x.score then x :: y :: ys else y :: insertByScoreDesc x ys

/-- Stable sort descending by `score`; models the source's
`.sort((a, b) => b.score - a.score)` (ECMAScript `Array.prototype.sort` is
stable, so equal scores keep their original relative order; the insertion sort
below realizes exactly that order). -/
def sortByScoreDesc (l : List PredictionResult) : List PredictionResult :=
  l.foldl (fun acc x => insertByScoreDesc x acc) []

/-- Method `generateBettingSignals`: builds one `PredictionResult` per combined
score — with `rank := idx + 1` taken from the ORIGINAL array position, before
any sorting — and then sorts the records descending by score. -/
def generateBettingSignals (scores : List ℚ) : List PredictionResult :=
  sortByScoreDesc (scores.enum.map (fun p =>
    { horse_name := "Horse_" ++ toString (p.1 + 1)
      rank := p.1 + 1
      score := p.2
      confidence := min p.2 1
      implied_probability := p.2
      betting_signal := getBettingSignal p.2
      expected_roi := calculateExpectedROI p.2 }))

/-- Method `calculateEnsembleConfidence`: mean confidence of the first three
predictions, capped at 1. -/
def calculateEnsembleConfidence (predictions : List PredictionResult) : ℚ :=
  let topPredictions := predictions.take 3
  let avgConfidence :=
    (topPredictions.map (·.confidence)).sum / (topPredictions.length : ℚ)
  min avgConfidence 1

/-- Population variance of the four per-model scores of one horse, as computed
inside `calculateModelAgreement` (`values.length` = 4). -/
def variance4 (a b c d : ℚ) : ℚ :=
  let values : List ℚ := [a, b, c, d]
  let mean := values.sum / (values.length : ℚ)
  (values.map (fun v => (v - mean)^2)).sum / (values.length : ℚ)

/-- Method `calculateModelAgreement`: `max 0 (1 - avgVariance)` where
`avgVariance` is the mean over horses of the four-model score variance.  As in
`combineWeightedPredictions`, the source indexes all four arrays by the
positions of the first one. -/
def calculateModelAgreement (lgb xgb cat neural : List ℚ) : ℚ :=
  let variances := (List.range lgb.length).map (fun i =>
    variance4 (lgb.getD i 0) (xgb.getD i 0) (cat.getD i 0) (neural.getD i 0))
  let avgVariance := variances.sum / (variances.length : ℚ)
  max 0 (1 - avgVariance)

/-- Method `getRecommendedAction`: model agreement below 0.5 short-circuits to
the low-agreement WAIT branch; otherwise the top (first) prediction's signal is
consulted together with STRICT comparisons `confidence > 0.75` resp. `> 0.60`. -/
def getRecommendedAction (predictions : List PredictionResult) (modelAgreement : ℚ) :
    RaceAction :=
  match predictions with
  | [] => if modelAgreement < 1/2 then .waitLowAgreement else .waitInsufficient
  | top :: _ =>
    if modelAgreement < 1/2 then .waitLowAgreement
    else if top.betting_signal = .STRONG_BUY ∧ 3/4 < top.confidence then
      .strongBuyTop top.horse_name
    else if top.betting_signal = .BUY ∧ 3/5 < top.confidence then
      .buyTop top.horse_name
    else if top.betting_signal = .HOLD then .holdModerate
    else .waitInsufficient

/-- Method `predictRace`.  The four per-model prediction arrays are produced in
the source by placeholder calls returning `Math.random()` per horse (one entry
per element of `horses`); they are passed here as explicit arguments. -/
def predictRace (horses : List RaceInput) (lgb xgb cat neural : List ℚ) :
    EnsembleOutput :=
  let _ := horses
  let ensemblePreds := combineWeightedPredictions lgb xgb cat neural
  let predictions := generateBettingSignals ensemblePreds
  let modelAgreement := calculateModelAgreement lgb xgb cat neural
  { predictions := predictions
    ensemble_confidence := calculateEnsembleConfidence predictions
    model_agreement := modelAgreement
    recommended_action := getRecommendedAction predictions modelAgreement }

/-! ### Helper lemmas about the stable sort -/

/-- Insertion produces a permutation of consing. -/
theorem insertByScoreDesc_perm (x : PredictionResult) (l : List PredictionResult) :
    List.Perm (insertByScoreDesc x l) (x :: l) := by
  induction l with
  | nil => simp [insertByScoreDesc]
  | cons y ys ih =>
    by_cases h : y.score < x.score
    · simp [insertByScoreDesc, h]
    · simp only [insertByScoreDesc, if_neg h]
      exact (List.Perm.cons y ih).trans (List.Perm.swap x y ys)

/-- Folding the insertion over a list permutes the concatenation. -/
theorem sortByScoreDesc_foldl_perm (l acc : List PredictionResult) :
    List.Perm (l.foldl (fun acc x => insertByScoreDesc x acc) acc) (acc ++ l) := by
  induction l generalizing acc with
  | nil => simp
  | cons x xs ih =>
    have h1 : List.Perm ((x :: xs).foldl (fun acc x => insertByScoreDesc x acc) acc)
        ((insertByScoreDesc x acc) ++ xs) := by
      simpa [List.foldl] using ih (insertByScoreDesc x acc)
    have h2 : List.Perm ((insertByScoreDesc x acc) ++ xs) (acc ++ x :: xs) := by
      refine ((insertByScoreDesc_perm x acc).append_right xs).trans ?_
      simpa using (@List.perm_middle _ x acc xs).symm
    exact h1.trans h2

/-- Sorting permutes the input list. -/
theorem sortByScoreDesc_perm (l : List PredictionResult) :
    List.Perm (sortByScoreDesc l) l := by
  simpa [sortByScoreDesc] using sortByScoreDesc_foldl_perm l []

/-- Every record produced by `generateBettingSignals` carries the signal that
`getBettingSignal` assigns to its own score; the rank field plays no role. -/
theorem generateBettingSignals_signal_of_score (scores : List ℚ) :
    ∀ p ∈ generateBettingSignals scores, p.betting_signal = getBettingSignal p.score := by
  intro p hp
  have hmem : p ∈ scores.enum.map (fun p =>
      ({ horse_name := "Horse_" ++ toString (p.1 + 1)
         rank := p.1 + 1
         score := p.2
         confidence := min p.2 1
         implied_probability := p.2
         betting_signal := getBettingSignal p.2
         expected_roi := calculateExpectedROI p.2 } : PredictionResult)) :=
    (sortByScoreDesc_perm _).mem_iff.mp hp
  rcases List.mem_map.mp hmem with ⟨q, _, rfl⟩
  rfl

/-! ### Claims C1 and C2 -/

/-- Claim C1 (code bug, evaluation at the failing input): for combined scores
[0.2, 0.9] the returned list is sorted descending by score, but the rank
fields were frozen from the input positions before sorting — the top-scoring
horse (score 0.9) carries rank 2 while rank 1 sits on the horse with the
lowest score 0.2.  The spec requires the rank-1 prediction to be the horse
with the highest combined score. -/
theorem rank_assigned_before_sort_eval :
    (generateBettingSignals [1/5, 9/10]).map (fun p => (p.rank, p.score)) =
      [(2, 9/10), (1, 1/5)] := by
  norm_num [generateBettingSignals, sortByScoreDesc, insertByScoreDesc,
    List.enum, List.enumFrom, List.foldl, getBettingSignal, calculateExpectedROI,
    confidenceThresholds]

/-- Claim C2 (amended): the betting signal of every produced prediction is a
function of that horse's combined score alone — `getBettingSignal` thresholds
at 0.75 / 0.60 / 0.45 and never consults the rank. -/
theorem betting_signal_by_confidence_only :
    (∀ c : ℚ,
      (3/4 ≤ c → getBettingSignal c = .STRONG_BUY) ∧
      (3/5 ≤ c → c < 3/4 → getBettingSignal c = .BUY) ∧
      (9/20 ≤ c → c < 3/5 → getBettingSignal c = .HOLD) ∧
      (c < 9/20 → getBettingSignal c = .WAIT)) ∧
    (∀ scores : List ℚ,
      (generateBettingSignals scores).map (·.betting_signal) =
        (generateBettingSignals scores).map (fun p => getBettingSignal p.score)) := by
  constructor
  · intro c
    refine ⟨fun h => ?_, fun h1 h2 => ?_, fun h1 h2 => ?_, fun h => ?_⟩
    · simp only [getBettingSignal, confidenceThresholds]
      rw [if_pos (by linarith)]
    · simp only [getBettingSignal, confidenceThresholds]
      rw [if_neg (by norm_num; linarith), if_pos (by linarith)]
    · simp only [getBettingSignal, confidenceThresholds]
      rw [if_neg (by norm_num; linarith), if_neg (by norm_num; linarith),
        if_pos (by linarith)]
    · simp only [getBettingSignal, confidenceThresholds]
      rw [if_neg (by norm_num; linarith), if_neg (by norm_num; linarith),
        if_neg (by norm_num; linarith)]
  · intro scores
    exact List.map_congr_left (fun p hp => generateBettingSignals_signal_of_score scores p hp)

/-- Claim C2 witness: the first threshold branch applied at confidence 0.8. -/
theorem betting_signal_by_confidence_only_witness :
    getBettingSignal (4/5) = .STRONG_BUY :=
  (betting_signal_by_confidence_only.1 (4/5)).1 (by norm_num)

/-- Claim C2 counterexample: the rank-1 horse of the race with combined scores
[0.65, 0.2] has confidence 0.65 — the claim demands STRONG_BUY for rank 1 with
confidence ≥ 0.65, but the code assigns BUY (0.65 < 0.75). -/
theorem rank1_conf065_gets_buy :
    (generateBettingSignals [13/20, 1/5]).map
      (fun p => (p.rank, p.confidence, p.betting_signal)) =
      [(1, 13/20, Signal.BUY), (2, 1/5, Signal.WAIT)] := by
  norm_num [generateBettingSignals, sortByScoreDesc, insertByScoreDesc,
    List.enum, List.enumFrom, List.foldl, getBettingSignal, calculateExpectedROI,
    confidenceThresholds, min_def]

/-! ## Accuracy Validator (src/services/monitoring/accuracy_validator.ts) -/

/-- Entry of the `predictedRankings` JSON array consumed by
`AccuracyValidator.calculateAccuracy`. -/
structure PredictedRanking where
  horse : String
  rank : ℚ
  score : ℚ
deriving DecidableEq, Repr

/-- Entry of the `actualRankings` JSON array of a race result. -/
structure ActualRanking where
  horse : String
  position : ℚ
  odds : ℚ
deriving DecidableEq, Repr

/-- Membership test of the `actualRanks` Map built in `calculateAccuracy`
(`actualRanks.has(h)`); the keys are the RAW horse strings of the result. -/
def actualHas (actualRankings : List ActualRanking) (h : String) : Bool :=
  (actualRankings.map (·.horse)).contains h

/-- The `commonHorses` join of `calculateAccuracy`: predicted horse names kept
when the raw name is a key of the actual-rank Map. -/
def commonHorses (predictedRankings : List PredictedRanking)
    (actualRankings : List ActualRanking) : List String :=
  (predictedRankings.map (·.horse)).filter (fun h => actualHas actualRankings h)

/-- The `topPickCorrect` flag of `calculateAccuracy`: RAW string equality
`prediction.topPick === result.winner`, with no normalization. -/
def topPickCorrect (topPick winner : String) : Bool :=
  topPick == winner

/-- The `predictedTop3` list of `calculateAccuracy`:
`predictedRankings.slice(0, 3).map(r => r.horse)`. -/
def predictedTop3 (predictedRankings : List PredictedRanking) : List String :=
  (predictedRankings.take 3).map (·.horse)

/-- The `top3Accuracy` flag of `calculateAccuracy`:
`predictedTop3.includes(result.winner)` — winner MEMBERSHIP, not an
order-sensitive comparison, and again on raw names. -/
def top3Accuracy (predictedRankings : List PredictedRanking) (winner : String) : Bool :=
  (predictedTop3 predictedRankings).contains winner

/-- Method `calculateSpearmanCorrelation`.  The two rank Maps are modelled as
total lookup functions (the source reads them with the non-null assertion
`get(horse)!`, and every horse passed in is a key of both); the key type is a
parameter, instantiated at `String` by the caller. -/
def calculateSpearmanCorrelation {α : Type} (horses : List α)
    (predictedRanks actualRanks : α → ℚ) : ℚ :=
  if horses.length < 2 then 0
  else
    let n : ℚ := (horses.length : ℚ)
    let sumDSquared :=
      (horses.map (fun h => (predictedRanks h - actualRanks h)^2)).sum
    let rho := 1 - (6 * sumDSquared) / (n * (n * n - 1))
    max (-1) (min 1 rho)

/-! ## Metrics Calculator (src/server/metrics_calculator_2.ts) -/

/-- Method `MetricsCalculator.normalizeHorseName`: `name.trim().toUpperCase()`.
Trim and upper-casing are modelled at character level (ASCII, which is what
`Char.toUpper` implements and what horse names use). -/
def normalizeHorseName (name : String) : String :=
  ⟨((name.data.dropWhile Char.isWhitespace).reverse.dropWhile
      Char.isWhitespace).reverse.map Char.toUpper⟩

/-- Prediction half of the `PredictionMatch` interface. -/
structure PredictionTop where
  horse1st : String
  horse2nd : String
  horse3rd : String
  horse4th : String
  confidence1st : ℚ
  confidence2nd : ℚ
  confidence3rd : ℚ
  confidence4th : ℚ
deriving DecidableEq, Repr

/-- Result half of the `PredictionMatch` interface. -/
structure ResultTop where
  winner : String
  second : String
  third : String
  fourth : String
  winningOdds : ℚ
  secondOdds : ℚ
  thirdOdds : ℚ
  fourthOdds : ℚ
deriving DecidableEq, Repr

/-- The `PredictionMatch` interface. -/
structure PredictionMatch where
  predictionId : ℕ
  raceId : String
  prediction : PredictionTop
  result : ResultTop
deriving DecidableEq, Repr

/-- Return record of `MetricsCalculator.calculateMatch`. -/
structure MatchFlags where
  top1Hit : Bool
  top2Hit : Bool
  top3Hit : Bool
  top4Hit : Bool
  exactaHit : Bool
  trifectaHit : Bool
  winHit : Bool
  placeHit : Bool
  showHit : Bool
deriving DecidableEq, Repr

/-- Method `MetricsCalculator.calculateMatch`: normalizes all eight names
first, then compares position by position (`top3Hit` demands first, second AND
third to agree — strict exact order). -/
def calculateMatch (m : PredictionMatch) : MatchFlags :=
  let pred1 := normalizeHorseName m.prediction.horse1st
  let pred2 := normalizeHorseName m.prediction.horse2nd
  let pred3 := normalizeHorseName m.prediction.horse3rd
  let pred4 := normalizeHorseName m.prediction.horse4th
  let res1 := normalizeHorseName m.result.winner
  let res2 := normalizeHorseName m.result.second
  let res3 := normalizeHorseName m.result.third
  let res4 := normalizeHorseName m.result.fourth
  let resultHorses := [res1, res2, res3, res4]
  { top1Hit := pred1 == res1
    top2Hit := pred1 == res1 && pred2 == res2
    top3Hit := pred1 == res1 && pred2 == res2 && pred3 == res3
    top4Hit := pred1 == res1 && pred2 == res2 && pred3 == res3 && pred4 == res4
    exactaHit := pred1 == res1 && pred2 == res2
    trifectaHit := pred1 == res1 && pred2 == res2 && pred3 == res3
    winHit := pred1 == res1
    placeHit := resultHorses.contains pred1
    showHit := resultHorses.contains pred1 }

/-! ### Claims C3 and C4 -/

/-- Claim C3 counterexample: predicted top 3 = [A, B, C], actual finishing
order [A, B, D, C] (winner A, actual top 3 = [A, B, D]).  The validator's
`top3Accuracy` flag is TRUE (the winner A is a member of the predicted top 3)
even though the predicted and actual top-3 sequences differ — the claim
demands the flag be false here. -/
theorem top3Accuracy_true_on_ABDC :
    top3Accuracy [⟨"A", 1, 1⟩, ⟨"B", 2, 1⟩, ⟨"C", 3, 1⟩] "A" = true ∧
    predictedTop3 [⟨"A", 1, 1⟩, ⟨"B", 2, 1⟩, ⟨"C", 3, 1⟩] ≠ ["A", "B", "D"] := by
  constructor
  · rfl
  · decide

/-- Claim C3 (amended): the Accuracy Validator's `top3Accuracy` flag is
winner-membership in the predicted top 3; the strict position-by-position
top-3 comparison described by the claim is implemented only by
`MetricsCalculator.calculateMatch` (`top3Hit`). -/
theorem top3_flag_semantics :
    (∀ (predictedRankings : List PredictedRanking) (winner : String),
      top3Accuracy predictedRankings winner = true ↔
        winner ∈ predictedTop3 predictedRankings) ∧
    (∀ m : PredictionMatch,
      (calculateMatch m).top3Hit = true ↔
        [normalizeHorseName m.prediction.horse1st,
         normalizeHorseName m.prediction.horse2nd,
         normalizeHorseName m.prediction.horse3rd] =
        [normalizeHorseName m.result.winner,
         normalizeHorseName m.result.second,
         normalizeHorseName m.result.third]) := by
  constructor
  · intro predictedRankings winner
    simp [top3Accuracy, List.contains, List.elem_eq_mem]
  · intro m
    simp only [calculateMatch, Bool.and_eq_true, beq_iff_eq, List.cons.injEq, and_true]
    tauto

/-- Claim C3 witness: both characterizations applied at a concrete match (the
[A,B,C] vs [A,B,D,C] race). -/
theorem top3_flag_semantics_witness :
    ("A" ∈ predictedTop3 [⟨"A", 1, 1⟩, ⟨"B", 2, 1⟩, ⟨"C", 3, 1⟩]) ∧
    (calculateMatch
        { predictionId := 1, raceId := "r1"
          prediction := ⟨"A", "B", "C", "X", 1, 1, 1, 1⟩
          result := ⟨"A", "B", "D", "C", 2, 2, 2, 2⟩ }).top3Hit ≠ true := by
  constructor
  · exact (top3_flag_semantics.1 [⟨"A", 1, 1⟩, ⟨"B", 2, 1⟩, ⟨"C", 3, 1⟩] "A").mp rfl
  · intro h
    have := (top3_flag_semantics.2 _).mp h
    revert this
    decide

/-- Claim C4 counterexample: " thunder " and "THUNDER" differ only by case and
surrounding whitespace (they normalize identically), yet the Accuracy
Validator's winner check `topPickCorrect` — raw string equality — treats them
as different horses, and its rank join drops the horse for the same reason. -/
theorem validator_compares_raw_names :
    topPickCorrect " thunder " "THUNDER" = false ∧
    normalizeHorseName " thunder " = normalizeHorseName "THUNDER" ∧
    commonHorses [⟨" thunder ", 1, 1⟩] [⟨"THUNDER", 1, 5⟩] = [] := by
  refine ⟨by decide, by decide, by decide⟩

/-- Claim C4 (amended): name normalization (trim + upper-case) is applied to
every comparison in `MetricsCalculator.calculateMatch`, so names differing
only in case or surrounding whitespace match there; the Accuracy Validator's
`calculateAccuracy`, however, compares raw names — its winner-equality flag
and its prediction/result rank join use the strings as-is. -/
theorem name_normalization_sites :
    (∀ m : PredictionMatch,
      (calculateMatch m).top1Hit =
        (normalizeHorseName m.prediction.horse1st ==
          normalizeHorseName m.result.winner)) ∧
    ((calculateMatch
        { predictionId := 1, raceId := "r1"
          prediction := ⟨" thunder ", "B", "C", "D", 1, 1, 1, 1⟩
          result := ⟨"THUNDER", "B", "C", "D", 2, 2, 2, 2⟩ }).top1Hit = true) ∧
    (∀ topPick winner : String, topPickCorrect topPick winner = (topPick == winner)) ∧
    (∀ (predictedRankings : List PredictedRanking)
        (actualRankings : List ActualRanking),
      commonHorses predictedRankings actualRankings =
        (predictedRankings.map (·.horse)).filter
          (fun h => (actualRankings.map (·.horse)).contains h)) := by
  refine ⟨fun m => rfl, by decide, fun t w => rfl, fun pr ar => rfl⟩

/-! ### Claim C5 — Spearman rank correlation -/

/-- Bridging lemma: a mapped `List.range` sum is the matching `Finset.range`
sum. -/
theorem list_range_map_sum (f : ℕ → ℚ) (n : ℕ) :
    ((List.range n).map f).sum = ∑ i in Finset.range n, f i := by
  induction n with
  | zero => simp
  | succ k ih => rw [List.range_succ, Finset.sum_range_succ]; simp [ih]

/-- Closed form of the sum of the first n naturals, over ℚ. -/
theorem sum_range_cast_q (n : ℕ) :
    ∑ i in Finset.range n, (i : ℚ) = (n : ℚ) * ((n : ℚ) - 1) / 2 := by
  induction n with
  | zero => simp
  | succ k ih => rw [Finset.sum_range_succ, ih]; push_cast; ring

/-- Closed form of the sum of the first n squares, over ℚ. -/
theorem sum_range_sq_cast_q (n : ℕ) :
    ∑ i in Finset.range n, (i : ℚ)^2 =
      (n : ℚ) * ((n : ℚ) - 1) * (2 * (n : ℚ) - 1) / 6 := by
  induction n with
  | zero => simp
  | succ k ih => rw [Finset.sum_range_succ, ih]; push_cast; ring

/-- Sum of squared rank differences of an exactly reversed permutation of
1..n: `Σ (2i + 1 - n)² = n (n² - 1) / 3`. -/
theorem sum_reversed_d_squared (n : ℕ) :
    ∑ i in Finset.range n, (2 * (i : ℚ) + 1 - n)^2 =
      (n : ℚ) * ((n : ℚ) * (n : ℚ) - 1) / 3 := by
  have step : ∑ i in Finset.range n, (2 * (i : ℚ) + 1 - n)^2
      = ∑ i in Finset.range n,
          (4 * (i : ℚ)^2 + (4 * (1 - (n : ℚ))) * (i : ℚ) + (1 - (n : ℚ))^2) :=
    Finset.sum_congr rfl (fun i _ => by ring)
  rw [step, Finset.sum_add_distrib, Finset.sum_add_distrib, ← Finset.mul_sum,
    ← Finset.mul_sum, sum_range_sq_cast_q, sum_range_cast_q, Finset.sum_const,
    Finset.card_range, nsmul_eq_mul]
  ring

/-- Claim C5: the rank correlation returns 0 below two common horses; on at
least two it is the clamped Spearman formula `1 - 6 Σd² / (n (n² - 1))`; a
rank map compared against itself (identical ordering) yields exactly 1; ranks
1..n against their exact reversal yield exactly -1. -/
theorem spearman_formula_and_extremes :
    (∀ predictedRanks actualRanks : String → ℚ,
      calculateSpearmanCorrelation ([] : List String) predictedRanks actualRanks = 0) ∧
    (∀ (h : String) (predictedRanks actualRanks : String → ℚ),
      calculateSpearmanCorrelation [h] predictedRanks actualRanks = 0) ∧
    (∀ (x y : String) (l : List String) (predictedRanks actualRanks : String → ℚ),
      calculateSpearmanCorrelation (x :: y :: l) predictedRanks actualRanks =
        max (-1) (min 1 (1 -
          6 * (((x :: y :: l).map
              (fun h => (predictedRanks h - actualRanks h)^2)).sum) /
            ((((x :: y :: l).length : ℚ)) *
              (((x :: y :: l).length : ℚ) * ((x :: y :: l).length : ℚ) - 1))))) ∧
    (∀ (x y : String) (l : List String) (r : String → ℚ),
      calculateSpearmanCorrelation (x :: y :: l) r r = 1) ∧
    (∀ m : ℕ,
      calculateSpearmanCorrelation (List.range (m + 2))
        (fun i => (i : ℚ) + 1) (fun i => ((m + 2 : ℕ) : ℚ) - (i : ℚ)) = -1) := by
  refine ⟨fun pr ar => rfl, fun h pr ar => rfl, ?_, ?_, ?_⟩
  · intro x y l pr ar
    simp only [calculateSpearmanCorrelation, List.length_cons]
    rw [if_neg (by omega)]
  · intro x y l r
    simp only [calculateSpearmanCorrelation, List.length_cons]
    rw [if_neg (by omega)]
    have hsum : ((x :: y :: l).map (fun h => (r h - r h)^2)).sum = 0 := by simp
    rw [hsum]
    norm_num
  · intro m
    simp only [calculateSpearmanCorrelation, List.length_range]
    rw [if_neg (by omega)]
    have hsum : ((List.range (m + 2)).map
        (fun (i : ℕ) => (((i : ℚ) + 1) - (((m + 2 : ℕ) : ℚ) - (i : ℚ)))^2)).sum =
        ((m + 2 : ℕ) : ℚ) * (((m + 2 : ℕ) : ℚ) * ((m + 2 : ℕ) : ℚ) - 1) / 3 := by
      rw [list_range_map_sum]
      have step : ∑ i in Finset.range (m + 2),
          (((i : ℚ) + 1) - (((m + 2 : ℕ) : ℚ) - (i : ℚ)))^2 =
          ∑ i in Finset.range (m + 2),
            (2 * (i : ℚ) + 1 - ((m + 2 : ℕ) : ℚ))^2 :=
        Finset.sum_congr rfl (fun i _ => by ring)
      rw [step]
      exact sum_reversed_d_squared (m + 2)
    rw [hsum]
    have hn : (0 : ℚ) <
        ((m + 2 : ℕ) : ℚ) * (((m + 2 : ℕ) : ℚ) * ((m + 2 : ℕ) : ℚ) - 1) := by
      have hm : (0 : ℚ) ≤ (m : ℚ) := Nat.cast_nonneg m
      push_cast
      nlinarith
    have key : ∀ D : ℚ, D ≠ 0 → 1 - 6 * (D / 3) / D = -1 := by
      intro D hD
      field_simp
      ring
    rw [key _ (ne_of_gt hn)]
    norm_num

/-! ### Claim C6 — model agreement -/

/-- Per-horse four-model variance is nonnegative. -/
theorem variance4_nonneg (a b c d : ℚ) : 0 ≤ variance4 a b c d := by
  simp only [variance4, List.map_cons, List.map_nil, List.sum_cons, List.sum_nil,
    List.length_cons, List.length_nil]
  positivity

/-- Per-horse four-model variance vanishes when all four scores coincide. -/
theorem variance4_same (y : ℚ) : variance4 y y y y = 0 := by
  simp only [variance4, List.map_cons, List.map_nil, List.sum_cons, List.sum_nil,
    List.length_cons, List.length_nil]
  ring_nf

/-- Mean over the race's horses of the four-model score variance (the quantity
the claim's formula is stated in terms of; it is the `avgVariance` local of
`calculateModelAgreement`). -/
def meanPerHorseVariance (lgb xgb cat neural : List ℚ) : ℚ :=
  (((List.range lgb.length).map (fun i =>
    variance4 (lgb.getD i 0) (xgb.getD i 0) (cat.getD i 0) (neural.getD i 0))).sum) /
    (lgb.length : ℚ)

/-- Claim C6: on a nonempty race the model agreement equals
`1 - meanPerHorseVariance` clamped to [0, 1] (the source's `max 0 _` is a full
clamp because the mean variance is nonnegative, so the value never exceeds 1),
and four identical per-model score arrays give agreement exactly 1.  The
lists are taken in cons form because the source throws on an empty race
(`reduce` of an empty array) rather than returning a value. -/
theorem model_agreement_clamped_and_unanimous :
    (∀ (a : ℚ) (la : List ℚ) (b : ℚ) (lb : List ℚ) (c : ℚ) (lc : List ℚ)
        (d : ℚ) (ld : List ℚ),
      calculateModelAgreement (a :: la) (b :: lb) (c :: lc) (d :: ld) =
        max 0 (min 1 (1 - meanPerHorseVariance (a :: la) (b :: lb) (c :: lc) (d :: ld)))) ∧
    (∀ (x : ℚ) (l : List ℚ),
      calculateModelAgreement (x :: l) (x :: l) (x :: l) (x :: l) = 1) := by
  constructor
  · intro a la b lb c lc d ld
    have hnonneg : 0 ≤ meanPerHorseVariance (a :: la) (b :: lb) (c :: lc) (d :: ld) := by
      apply div_nonneg
      · apply List.sum_nonneg
        intro q hq
        rcases List.mem_map.mp hq with ⟨i, _, rfl⟩
        exact variance4_nonneg _ _ _ _
      · positivity
    have hmin : min 1 (1 - meanPerHorseVariance (a :: la) (b :: lb) (c :: lc) (d :: ld)) =
        1 - meanPerHorseVariance (a :: la) (b :: lb) (c :: lc) (d :: ld) :=
      min_eq_right (by linarith)
    rw [hmin]
    simp only [calculateModelAgreement, meanPerHorseVariance, List.length_map,
      List.length_range]
  · intro x l
    have hvar : ((List.range (x :: l).length).map (fun i =>
        variance4 ((x :: l).getD i 0) ((x :: l).getD i 0) ((x :: l).getD i 0)
          ((x :: l).getD i 0))).sum = 0 := by
      have hcongr : (List.range (x :: l).length).map (fun i =>
          variance4 ((x :: l).getD i 0) ((x :: l).getD i 0) ((x :: l).getD i 0)
            ((x :: l).getD i 0)) =
          (List.range (x :: l).length).map (fun _ => (0 : ℚ)) :=
        List.map_congr_left (fun i _ => variance4_same _)
      rw [hcongr]
      simp
    simp only [calculateModelAgreement, hvar, List.length_map, List.length_range]
    norm_num

/-! ### Claim C7 — race-level recommendation -/

/-- Claim C7 counterexample: combined scores [0.75, 0.2] put the top horse at
confidence exactly 0.75 with signal STRONG_BUY; with model agreement 0.6
(≥ 0.5) the claim demands the race recommendation mirror the STRONG_BUY tier,
but the source's strict `confidence > 0.75` comparison drops it to the
insufficient-confidence WAIT branch. -/
theorem strong_buy_boundary_waits :
    ((generateBettingSignals [3/4, 1/5]).head?.map (·.betting_signal) =
      some Signal.STRONG_BUY) ∧
    getRecommendedAction (generateBettingSignals [3/4, 1/5]) (3/5) =
      RaceAction.waitInsufficient := by
  have heval : generateBettingSignals [3/4, 1/5] =
      [{ horse_name := "Horse_1", rank := 1, score := 3/4, confidence := 3/4,
         implied_probability := 3/4, betting_signal := .STRONG_BUY,
         expected_roi := 65 },
       { horse_name := "Horse_2", rank := 2, score := 1/5, confidence := 1/5,
         implied_probability := 1/5, betting_signal := .WAIT,
         expected_roi := 10 }] := by
    norm_num [generateBettingSignals, sortByScoreDesc, insertByScoreDesc,
      List.enum, List.enumFrom, List.foldl, getBettingSignal,
      calculateExpectedROI, confidenceThresholds, min_def]
    exact ⟨rfl, rfl⟩
  rw [heval]
  refine ⟨rfl, ?_⟩
  simp only [getRecommendedAction]
  norm_num
  rfl

/-- Claim C7 (amended): model agreement below 0.5 forces the low-agreement
WAIT recommendation whatever the predictions say; with agreement at least 0.5
the recommendation mirrors the top prediction's signal tier EXCEPT at the
exact boundaries — a STRONG_BUY top signal with confidence not above 0.75, or
a BUY top signal with confidence not above 0.60, falls through to the
insufficient-confidence WAIT branch. -/
theorem recommended_action_branches :
    (∀ (predictions : List PredictionResult) (ag : ℚ), ag < 1/2 →
      getRecommendedAction predictions ag = .waitLowAgreement) ∧
    (∀ (top : PredictionResult) (rest : List PredictionResult) (ag : ℚ), ¬ ag < 1/2 →
      (top.betting_signal = .STRONG_BUY → 3/4 < top.confidence →
        getRecommendedAction (top :: rest) ag = .strongBuyTop top.horse_name) ∧
      (top.betting_signal = .STRONG_BUY → top.confidence ≤ 3/4 →
        getRecommendedAction (top :: rest) ag = .waitInsufficient) ∧
      (top.betting_signal = .BUY → 3/5 < top.confidence →
        getRecommendedAction (top :: rest) ag = .buyTop top.horse_name) ∧
      (top.betting_signal = .BUY → top.confidence ≤ 3/5 →
        getRecommendedAction (top :: rest) ag = .waitInsufficient) ∧
      (top.betting_signal = .HOLD →
        getRecommendedAction (top :: rest) ag = .holdModerate) ∧
      (top.betting_signal = .WAIT →
        getRecommendedAction (top :: rest) ag = .waitInsufficient)) := by
  constructor
  · intro predictions ag hag
    cases predictions with
    | nil => simp only [getRecommendedAction]; rw [if_pos hag]
    | cons top rest => simp only [getRecommendedAction]; rw [if_pos hag]
  · intro top rest ag hag
    refine ⟨fun hsig hconf => ?_, fun hsig hconf => ?_, fun hsig hconf => ?_,
      fun hsig hconf => ?_, fun hsig => ?_, fun hsig => ?_⟩
    · simp only [getRecommendedAction]
      rw [if_neg hag, if_pos ⟨hsig, hconf⟩]
    · simp only [getRecommendedAction]
      rw [if_neg hag, if_neg (fun hc => absurd hc.2 (not_lt.mpr hconf)),
        if_neg (fun hc => by simp [hsig] at hc), if_neg (by simp [hsig])]
    · simp only [getRecommendedAction]
      rw [if_neg hag, if_neg (fun hc => by simp [hsig] at hc), if_pos ⟨hsig, hconf⟩]
    · simp only [getRecommendedAction]
      rw [if_neg hag, if_neg (fun hc => by simp [hsig] at hc),
        if_neg (fun hc => absurd hc.2 (not_lt.mpr hconf)), if_neg (by simp [hsig])]
    · simp only [getRecommendedAction]
      rw [if_neg hag, if_neg (fun hc => by simp [hsig] at hc),
        if_neg (fun hc => by simp [hsig] at hc), if_pos hsig]
    · simp only [getRecommendedAction]
      rw [if_neg hag, if_neg (fun hc => by simp [hsig] at hc),
        if_neg (fun hc => by simp [hsig] at hc), if_neg (by simp [hsig])]

/-- Claim C7 witness: the low-agreement override applied at agreement 0.3. -/
theorem recommended_action_branches_witness :
    getRecommendedAction [] (3/10) = RaceAction.waitLowAgreement :=
  recommended_action_branches.1 [] (3/10) (by norm_num)

/-! ### Claim C8 — no minimum-field-size validation -/

/-- Record count produced by `generateBettingSignals` equals the score count. -/
theorem generateBettingSignals_length (scores : List ℚ) :
    (generateBettingSignals scores).length = scores.length := by
  unfold generateBettingSignals
  rw [(sortByScoreDesc_perm _).length_eq]
  simp

/-- Sample single-horse race input used by the claim C8 counterexample. -/
def soloHorse : RaceInput :=
  { horse_name := "Solo", track_name := "T", distance := 1200, barrier := 1,
    weight := 55, jockey := "J", trainer := "Tr",
    form_data := { last_5_finishes := [1], days_since_last_race := 10,
                   avg_perf_index_l5 := 1, weighted_form_score := 1 } }

/-- Claim C8 counterexample: a one-horse race is not rejected — `predictRace`
returns a normal ensemble output containing exactly the one horse's
prediction. -/
theorem single_horse_race_predicted :
    ((predictRace [soloHorse] [1/2] [1/2] [1/2] [1/2]).predictions.map
      (fun p => (p.horse_name, p.rank, p.score))) = [("Horse_1", 1, 1/2)] := by
  norm_num [predictRace, combineWeightedPredictions, modelWeights,
    generateBettingSignals, sortByScoreDesc, insertByScoreDesc, List.enum,
    List.enumFrom, List.foldl, getBettingSignal, calculateExpectedROI,
    confidenceThresholds, min_def, List.range]
  rfl

/-- Claim C8 (amended): `predictRace` performs no input-size validation at
all — it returns one prediction per model score (one per horse in the source)
for ANY field size, so a race with fewer than 2 horses is processed like any
other instead of being rejected with a reason. -/
theorem predictRace_accepts_small_fields :
    (∀ (horses : List RaceInput) (lgb xgb cat neural : List ℚ),
      (predictRace horses lgb xgb cat neural).predictions.length = lgb.length) ∧
    (∀ (h : RaceInput) (a b c d : ℚ),
      (predictRace [h] [a] [b] [c] [d]).predictions.length = 1) := by
  have hlen : ∀ (horses : List RaceInput) (lgb xgb cat neural : List ℚ),
      (predictRace horses lgb xgb cat neural).predictions.length = lgb.length := by
    intro horses lgb xgb cat neural
    simp [predictRace, generateBettingSignals_length, combineWeightedPredictions]
  exact ⟨hlen, fun h a b c d => hlen [h] [a] [b] [c] [d]⟩

/-! ## Metrics Aggregator (src/server/services/metrics_service.ts) -/

/-- Mean of a model's recorded `roi_if_bet` values (`roiMean` local of
`getModelPerformance`). -/
def roiMean (roiValues : List ℚ) : ℚ :=
  roiValues.sum / (roiValues.length : ℚ)

/-- Population variance of the recorded ROI values (the radicand of the
source's `roiStdDev`). -/
def roiVariance (roiValues : List ℚ) : ℚ :=
  (roiValues.map (fun v => (v - roiMean roiValues)^2)).sum / (roiValues.length : ℚ)

/-- Standard deviation of the ROI values (`Math.sqrt` forces the reals here;
everything before the square root stays exact). -/
noncomputable def roiStdDev (roiValues : List ℚ) : ℝ :=
  Real.sqrt ((roiVariance roiValues : ℚ) : ℝ)

/-- Sharpe ratio of `getModelPerformance`:
`roiStdDev > 0 ? roiMean / roiStdDev : 0`. -/
noncomputable def sharpeRatio (roiValues : List ℚ) : ℝ :=
  if 0 < roiStdDev roiValues then ((roiMean roiValues : ℚ) : ℝ) / roiStdDev roiValues
  else 0

/-- Slice of the source's `ModelPerformance` record restricted to the fields
`calculateOptimalWeights` reads (the omitted fields — hit rates, calibration,
ROI totals — are independent aggregations that the weight computation never
consults). -/
structure ModelPerformance where
  model_name : String
  total_predictions : ℕ
  sharpe_ratio : ℝ

/-- Method `getModelPerformance`, restricted to the same fields.
`roiValues` is the list of `roi_if_bet` entries of the model's recorded
predictions; an unknown model yields the all-zero record, exactly as the
source's early return. -/
noncomputable def getModelPerformance (modelName : String) (roiValues : List ℚ) :
    ModelPerformance :=
  if roiValues.length = 0 then
    { model_name := modelName, total_predictions := 0, sharpe_ratio := 0 }
  else
    { model_name := modelName, total_predictions := roiValues.length,
      sharpe_ratio := sharpeRatio roiValues }

/-- Method `calculateOptimalWeights`.  `models` is the `modelMetrics` Map as
an association list (keys are distinct model names; every entry holds the
nonempty record list accumulated by `recordPrediction`), carrying each model's
recorded ROI values. -/
noncomputable def calculateOptimalWeights (models : List (String × List ℚ)) :
    List (String × ℝ) :=
  let performances := models.map (fun m => getModelPerformance m.1 m.2)
  if performances.length = 0 then []
  else
    let totalSharpe := (performances.map (fun p => p.sharpe_ratio)).sum
    performances.map (fun p =>
      (p.model_name,
        if 0 < totalSharpe then p.sharpe_ratio / totalSharpe
        else 1 / (performances.length : ℝ)))

/-- Dividing each mapped value by a constant divides the sum. -/
theorem list_sum_map_div {α : Type} (l : List α) (f : α → ℝ) (c : ℝ) :
    (l.map (fun x => f x / c)).sum = (l.map f).sum / c := by
  induction l with
  | nil => simp
  | cons x xs ih => simp [ih, add_div]

/-- Summing a constant over a list multiplies it by the length. -/
theorem list_sum_map_const {α : Type} (l : List α) (c : ℝ) :
    (l.map (fun _ => c)).sum = (l.length : ℝ) * c := by
  induction l with
  | nil => simp
  | cons x xs ih => simp [ih]; ring

/-! ### Claim C10 -/

/-- Claim C10: with at least one recorded model (each with at least one
recorded prediction), the optimal weights carry one entry per model in order;
they sum to exactly 1; a positive Sharpe total makes each weight the model's
Sharpe ratio over the total, and otherwise every model gets exactly 1/N; and a
model whose ROI standard deviation is 0 has Sharpe ratio 0. -/
theorem optimal_weights_sum_to_one (models : List (String × List ℚ))
    (hne : models ≠ []) (hrec : ∀ m ∈ models, m.2 ≠ []) :
    ((calculateOptimalWeights models).map Prod.fst = models.map Prod.fst) ∧
    (((calculateOptimalWeights models).map Prod.snd).sum = 1) ∧
    (0 < (models.map (fun m => sharpeRatio m.2)).sum →
      calculateOptimalWeights models = models.map (fun m =>
        (m.1, sharpeRatio m.2 / (models.map (fun m2 => sharpeRatio m2.2)).sum))) ∧
    (¬ 0 < (models.map (fun m => sharpeRatio m.2)).sum →
      calculateOptimalWeights models = models.map (fun m =>
        (m.1, 1 / (models.length : ℝ)))) ∧
    (∀ roiValues : List ℚ, roiStdDev roiValues = 0 → sharpeRatio roiValues = 0) := by
  have hperf : models.map (fun m => getModelPerformance m.1 m.2) =
      models.map (fun m => (⟨m.1, m.2.length, sharpeRatio m.2⟩ : ModelPerformance)) := by
    refine List.map_congr_left (fun m hm => ?_)
    rw [getModelPerformance, if_neg (fun h => hrec m hm (List.length_eq_zero.mp h))]
  have hlen0 : ¬ (models.map (fun m => getModelPerformance m.1 m.2)).length = 0 := by
    simpa using fun h => hne (List.length_eq_zero.mp h)
  have htot : ((models.map (fun m => getModelPerformance m.1 m.2)).map
      (fun p => p.sharpe_ratio)).sum = (models.map (fun m => sharpeRatio m.2)).sum := by
    rw [hperf, List.map_map]
    rfl
  have hcw : calculateOptimalWeights models =
      models.map (fun m => (m.1,
        if 0 < (models.map (fun m2 => sharpeRatio m2.2)).sum then
          sharpeRatio m.2 / (models.map (fun m2 => sharpeRatio m2.2)).sum
        else 1 / (models.length : ℝ))) := by
    rw [calculateOptimalWeights]
    simp only [if_neg hlen0]
    rw [htot, hperf, List.map_map, List.length_map]
    rfl
  refine ⟨?_, ?_, ?_, ?_, ?_⟩
  · rw [hcw, List.map_map]
    rfl
  · rw [hcw, List.map_map]
    by_cases hpos : 0 < (models.map (fun m2 => sharpeRatio m2.2)).sum
    · have : (models.map (Prod.snd ∘ fun m => (m.1,
          if 0 < (models.map (fun m2 => sharpeRatio m2.2)).sum then
            sharpeRatio m.2 / (models.map (fun m2 => sharpeRatio m2.2)).sum
          else 1 / (models.length : ℝ)))) =
          models.map (fun m => sharpeRatio m.2 / (models.map (fun m2 => sharpeRatio m2.2)).sum) := by
        refine List.map_congr_left (fun m hm => ?_)
        simp [hpos]
      rw [this, list_sum_map_div]
      exact div_self (ne_of_gt hpos)
    · have : (models.map (Prod.snd ∘ fun m => (m.1,
          if 0 < (models.map (fun m2 => sharpeRatio m2.2)).sum then
            sharpeRatio m.2 / (models.map (fun m2 => sharpeRatio m2.2)).sum
          else 1 / (models.length : ℝ)))) =
          models.map (fun _ => 1 / (models.length : ℝ)) := by
        refine List.map_congr_left (fun m hm => ?_)
        simp [hpos]
      rw [this, list_sum_map_const]
      have hlenne : (models.length : ℝ) ≠ 0 := by
        simpa using fun h => hne (List.length_eq_zero.mp h)
      field_simp
  · intro hpos
    rw [hcw]
    refine List.map_congr_left (fun m hm => ?_)
    simp [hpos]
  · intro hpos
    rw [hcw]
    refine List.map_congr_left (fun m hm => ?_)
    simp [hpos]
  · intro roiValues hsd
    rw [sharpeRatio, hsd, if_neg (lt_irrefl 0)]

/-- Sample metrics store for the claim C10 witness: two models, each with two
recorded predictions. -/
def weightsSample : List (String × List ℚ) := [("a", [1, 1]), ("b", [2, 2])]

/-- Claim C10 witness: the weight total evaluates to 1 on the sample store. -/
theorem optimal_weights_sum_to_one_witness :
    ((calculateOptimalWeights weightsSample).map Prod.snd).sum = 1 :=
  (optimal_weights_sum_to_one weightsSample (by simp [weightsSample])
    (by simp [weightsSample])).2.1

/-! ## Auto-Retraining Engine (src/server/services/auto_retraining_service.ts) -/

/-- The `triggered_by` values of a retraining job. -/
inductive TriggerKind where
  | schedule
  | performance_drop
  | manual
deriving DecidableEq, Repr

/-- The `status` values of a retraining job. -/
inductive JobStatus where
  | pending
  | running
  | completed
  | failed
deriving DecidableEq, Repr

/-- A `RetrainingJob` record (the `job_id` string and the post-completion
`improvement_percent`/`error_message` fields are clock/random-derived and
carry no decision logic). -/
structure RetrainingJob where
  model_name : String
  triggered_by : TriggerKind
  status : JobStatus
  started_at : ℚ
deriving DecidableEq, Repr

/-- The `RetrainingConfig` record. -/
structure RetrainingConfig where
  enabled : Bool
  min_predictions_before_retrain : ℕ
  retrain_interval_hours : ℚ
  performance_threshold : ℚ
  max_retrain_frequency : ℚ
  auto_weight_optimization : Bool
deriving DecidableEq, Repr

/-- Default configuration of `AutoRetrainingEngine`. -/
def defaultRetrainingConfig : RetrainingConfig :=
  { enabled := true, min_predictions_before_retrain := 100,
    retrain_interval_hours := 24, performance_threshold := 65/100,
    max_retrain_frequency := 3, auto_weight_optimization := true }

/-- Mutable engine state: the append-only `retrainingJobs` array and the
per-model `lastRetrainingTime` Map (modelled as a lookup function, `none` for
an absent key).  Time is in milliseconds, passed explicitly where the source
calls `Date.now()`. -/
structure EngineState where
  retrainingJobs : List RetrainingJob
  lastRetrainingTime : String → Option ℚ

/-- Fresh engine state (empty job list, empty map). -/
def initialEngineState : EngineState :=
  { retrainingJobs := [], lastRetrainingTime := fun _ => none }

/-- The cooldown window of `triggerRetraining`:
`retrain_interval_hours * 60 * 60 * 1000 / max_retrain_frequency`. -/
def cooldownWindowMs (cfg : RetrainingConfig) : ℚ :=
  cfg.retrain_interval_hours * 60 * 60 * 1000 / cfg.max_retrain_frequency

/-- The frequency check of `triggerRetraining`: skip the model when a last
retraining time is RECORDED and `now` falls inside the cooldown window.  The
map entry is written only on job COMPLETION (see `completeRetrainingJob`), so
a job still in flight leaves the check open. -/
def shouldSkipRetrain (cfg : RetrainingConfig) (st : EngineState) (model : String)
    (now : ℚ) : Bool :=
  match st.lastRetrainingTime model with
  | none => false
  | some t => decide (now - t < cooldownWindowMs cfg)

/-- Method `triggerRetraining`: one model (when named) or all four base
models; per model either skip (cooldown) or append a job record and fire
`executeRetrainingJob`, which synchronously marks the job `running` before its
first await — hence a freshly created job is observed as `running`.  Returns
the updated state and the newly created jobs. -/
def triggerRetraining (cfg : RetrainingConfig) (st : EngineState)
    (trigger : TriggerKind) (modelName : Option String) (now : ℚ) :
    EngineState × List RetrainingJob :=
  let modelsToRetrain := match modelName with
    | some m => [m]
    | none => ["lightgbm", "xgboost", "catboost", "neural"]
  modelsToRetrain.foldl (fun acc model =>
    if shouldSkipRetrain cfg acc.1 model now then acc
    else
      let job : RetrainingJob :=
        { model_name := model, triggered_by := trigger, status := .running,
          started_at := now }
      ({ acc.1 with retrainingJobs := acc.1.retrainingJobs ++ [job] },
        acc.2 ++ [job]))
    (st, [])

/-- Completion step of `executeRetrainingJob` (the part after the awaited
training finishes): the job at index `i` becomes `completed` and — only
now — the model's `lastRetrainingTime` entry is set. -/
def completeRetrainingJob (st : EngineState) (i : ℕ) (now : ℚ) : EngineState :=
  match st.retrainingJobs.get? i with
  | none => st
  | some job =>
    { retrainingJobs := st.retrainingJobs.set i { job with status := .completed },
      lastRetrainingTime := fun m =>
        if m = job.model_name then some now else st.lastRetrainingTime m }

/-- The claim's configuration: `max_retrain_frequency = 1` with the default
24-hour interval, so the cooldown window is the full 24 hours. -/
def cooldownCfg : RetrainingConfig :=
  { defaultRetrainingConfig with max_retrain_frequency := 1 }

/-! ### Claim C9 -/

/-- Claim C9 counterexample: two manual retrain requests for the same model
1 second apart, the second issued while the first job is still in flight
(nothing completed yet).  Both requests create a job — the engine holds TWO
running jobs for the model inside one 24-hour window, where the claim allows
exactly one running/completed job and demands the second request be skipped. -/
theorem two_inflight_manual_requests_both_create_jobs :
    ((triggerRetraining cooldownCfg
        (triggerRetraining cooldownCfg initialEngineState .manual
          (some "lightgbm") 0).1
        .manual (some "lightgbm") 1000).1.retrainingJobs.map
      (fun j => (j.model_name, j.status, j.started_at))) =
      [("lightgbm", JobStatus.running, 0), ("lightgbm", JobStatus.running, 1000)] := by
  rfl

/-- Claim C9 (amended): the retrain-frequency cap is enforced against the
RECORDED completion time only — a request for a model whose last completion
timestamp lies within `retrain_interval / max_retrain_frequency` of now is
skipped and creates no job; a request for a model with no recorded completion
(including one whose job is still in flight) always creates exactly one job;
completing a job records its model's timestamp. -/
theorem retrain_cooldown_after_completion :
    (∀ (cfg : RetrainingConfig) (st : EngineState) (trig : TriggerKind)
        (model : String) (t now : ℚ),
      st.lastRetrainingTime model = some t → now - t < cooldownWindowMs cfg →
      triggerRetraining cfg st trig (some model) now = (st, [])) ∧
    (∀ (cfg : RetrainingConfig) (st : EngineState) (trig : TriggerKind)
        (model : String) (now : ℚ),
      st.lastRetrainingTime model = none →
      (triggerRetraining cfg st trig (some model) now).2 =
        [{ model_name := model, triggered_by := trig, status := .running,
           started_at := now }]) ∧
    (∀ (st : EngineState) (i : ℕ) (job : RetrainingJob) (now : ℚ),
      st.retrainingJobs.get? i = some job →
      (completeRetrainingJob st i now).lastRetrainingTime job.model_name = some now) := by
  refine ⟨?_, ?_, ?_⟩
  · intro cfg st trig model t now hlt hwin
    simp [triggerRetraining, List.foldl, shouldSkipRetrain, hlt, hwin]
  · intro cfg st trig model now hlt
    simp [triggerRetraining, List.foldl, shouldSkipRetrain, hlt]
  · intro st i job now hget
    simp only [List.get?_eq_getElem?] at hget
    simp [completeRetrainingJob, hget]

/-- End-to-end state for the claim C9 witness: a model whose single job
completed at time 5000. -/
def stampedState : EngineState :=
  completeRetrainingJob
    (triggerRetraining cooldownCfg initialEngineState .manual (some "lightgbm") 0).1
    0 5000

/-- Claim C9 witness: one second after the completion (time 6000, far inside
the 24-hour window) a second manual request is skipped: the state is
unchanged, no job is created, and the history holds exactly the one completed
job. -/
theorem retrain_cooldown_after_completion_witness :
    triggerRetraining cooldownCfg stampedState .manual (some "lightgbm") 6000 =
      (stampedState, []) ∧
    (stampedState.retrainingJobs.map (fun j => j.status)) = [JobStatus.completed] := by
  constructor
  · refine (retrain_cooldown_after_completion.1 cooldownCfg stampedState .manual
      "lightgbm" 5000 6000 ?_ ?_)
    · rfl
    · norm_num [cooldownWindowMs, cooldownCfg, defaultRetrainingConfig]
  · rfl
